import Mathlib

/-!
Verification of the signaler repository's translate-and-summarize pipeline
(`src/AI_summarize.py`) against its natural-language specification.

Strings are embedded as lists of characters (`Str`), so that Python slicing,
searching and concatenation become `List` operations.  Pure functions of the
source are translated directly; the external YAML parser/serializer and the
external tokenizer are abstracted as parameters (the spec places them out of
scope), and the filesystem loop of `main` is embedded as explicit state
passing over a list of file names.
-/

namespace Signaler

/-- Python strings, embedded as lists of characters. -/
abbrev Str := List Char

/-- `SUMMARY_CHARS = 200` (AI_summarize.py line 41). -/
def SUMMARY_CHARS : Nat := 200

/-- `CHUNK_TOKENS = 8000` (AI_summarize.py line 42): maximal tokens of one chunk. -/
def CHUNK_TOKENS : Nat := 8000

/-- `CHUNK_OVERLAP = 200` (AI_summarize.py line 43): overlap of adjacent chunks. -/
def CHUNK_OVERLAP : Nat := 200

/-- The character-fallback token estimator (AI_summarize.py lines 31-32):
when tiktoken is unavailable `_token_len(txt) = len(txt)`. -/
def token_len_fallback (txt : Str) : Nat := txt.length

/-- Helper of `splitlines`: `acc` holds the characters of the current line in
reverse.  Models Python `str.splitlines(keepends=True)` on newline boundaries
(AI_summarize.py line 77): each produced line keeps its trailing newline, and a
last line without a newline is still produced. -/
def splitlinesGo (acc : Str) : Str → List Str
  | [] => if acc = [] then [] else [acc.reverse]
  | c :: cs =>
    if c = '\n' then (acc.reverse ++ [c]) :: splitlinesGo [] cs
    else splitlinesGo (c :: acc) cs

/-- `md.splitlines(keepends=True)` (AI_summarize.py line 77). -/
def splitlines (s : Str) : List Str := splitlinesGo [] s

/-- A Python whitespace character, as matched by the regex class `\s`
(ASCII range). -/
def isWsChar (c : Char) : Bool :=
  c = ' ' || c = '\t' || c = '\n' || c = '\r' || c = Char.ofNat 11 || c = Char.ofNat 12

/-- Helper of `hdrMatch`: `k` counts the heading markers consumed so far. -/
def hdrGo : Nat → Str → Bool
  | k, '#' :: cs => decide (k < 6) && hdrGo (k + 1) cs
  | k, c :: _ => decide (1 ≤ k) && isWsChar c
  | _, [] => false

/-- `_HDR_RE.match(ln)` for the regex `^#{1,6}\s` (AI_summarize.py line 73):
one to six `#` markers at the start of the line, followed by a whitespace
character. -/
def hdrMatch (ln : Str) : Bool := hdrGo 0 ln

/-- The header-driven section loop of `_split_markdown`
(AI_summarize.py lines 76-84): a heading line closes the current buffer only
when that buffer is non-empty; trailing buffered lines are flushed at the
end. -/
def sectionsGo (buf : List Str) : List Str → List Str
  | [] => if buf = [] then [] else [buf.flatten]
  | ln :: rest =>
    if hdrMatch ln && !buf.isEmpty then buf.flatten :: sectionsGo [ln] rest
    else sectionsGo (buf ++ [ln]) rest

/-- The Sections of a document body: the first phase of `_split_markdown`
(AI_summarize.py lines 76-84). -/
def split_sections (md : Str) : List Str := sectionsGo [] (splitlines md)

/-- One slicing loop `for i in range(0, len(l), stride): out.append(l[i:i+window])`
(AI_summarize.py lines 93-94 and 97-98).  Python's `range` raises `ValueError`
on a zero stride; that error case is embedded as the empty output. -/
def sliceWindows (window stride : Nat) : List α → List (List α)
  | [] => []
  | c :: cs =>
    if stride = 0 then []
    else (c :: cs).take window :: sliceWindows window stride ((c :: cs).drop stride)
termination_by l => l.length
decreasing_by
  simp only [List.length_drop, List.length_cons]
  omega

/-- The token stride `CHUNK_TOKENS - CHUNK_OVERLAP` of the exact-tokenizer
slicing loop (AI_summarize.py line 93). -/
def tokStride : Nat := CHUNK_TOKENS - CHUNK_OVERLAP

/-- `step = (CHUNK_TOKENS - CHUNK_OVERLAP) * 4` of the character-fallback
slicing loop (AI_summarize.py line 96). -/
def charStep : Nat := (CHUNK_TOKENS - CHUNK_OVERLAP) * 4

/-- The character-fallback branch for an over-budget section
(AI_summarize.py lines 95-98): `seg[i:i+step]` for `i in range(0, len(seg), step)`.
Note that the window size and the stride are both `step`. -/
def slice_chars (seg : Str) : List Str := sliceWindows charStep charStep seg

/-- An abstract lossless tokenizer, standing for tiktoken's `cl100k_base`
encoding (AI_summarize.py lines 24-28): `enc` is `_enc.encode`, `dec` is
`_enc.decode`, and decoding the encoding of a string gives the string back. -/
structure Encoder where
  enc : Str → List Nat
  dec : List Nat → Str
  dec_enc : ∀ s : Str, dec (enc s) = s

/-- The exact-tokenizer branch for an over-budget section
(AI_summarize.py lines 91-94): windows of `CHUNK_TOKENS` tokens advancing by
`CHUNK_TOKENS - CHUNK_OVERLAP`, each decoded back to text. -/
def slice_tokens (E : Encoder) (seg : Str) : List Str :=
  (sliceWindows CHUNK_TOKENS tokStride (E.enc seg)).map E.dec

/-- The second phase of `_split_markdown` (AI_summarize.py lines 86-99),
generic in the token estimator `tl` and the over-budget slicer `slice`:
a section within budget is emitted unchanged, an over-budget section is
sliced. -/
def split_markdown_with (tl : Str → Nat) (slice : Str → List Str) (md : Str) :
    List Str :=
  ((split_sections md).map
    (fun seg => if tl seg ≤ CHUNK_TOKENS then [seg] else slice seg)).flatten

/-- `_split_markdown` when tiktoken is unavailable: the estimator is the
character count and over-budget sections are sliced by characters. -/
def split_markdown_fallback (md : Str) : List Str :=
  split_markdown_with token_len_fallback slice_chars md

/-- `_split_markdown` when tiktoken is available, over the abstract
encoder `E`: the estimator is `len(_enc.encode(seg))` and over-budget
sections are sliced by tokens. -/
def split_markdown_exact (E : Encoder) (md : Str) : List Str :=
  split_markdown_with (fun s => (E.enc s).length) (slice_tokens E) md

/-- Concatenating the lines produced by `splitlinesGo` restores the input,
up to the pending accumulator. -/
theorem splitlinesGo_flatten (s : Str) :
    ∀ acc : Str, (splitlinesGo acc s).flatten = acc.reverse ++ s := by
  induction s with
  | nil =>
    intro acc
    by_cases h : acc = [] <;> simp [splitlinesGo, h]
  | cons c cs ih =>
    intro acc
    by_cases h : c = '\n'
    · simp [splitlinesGo, h, ih]
    · simp [splitlinesGo, h, ih]

/-- Concatenating the lines of `splitlines` restores the input. -/
theorem splitlines_flatten (s : Str) : (splitlines s).flatten = s := by
  simpa using splitlinesGo_flatten s []

/-- Concatenating the sections produced by `sectionsGo` restores the buffered
lines followed by the remaining lines. -/
theorem sectionsGo_flatten (lines : List Str) :
    ∀ buf : List Str,
      (sectionsGo buf lines).flatten = buf.flatten ++ lines.flatten := by
  induction lines with
  | nil =>
    intro buf
    by_cases h : buf = [] <;> simp [sectionsGo, h]
  | cons ln rest ih =>
    intro buf
    by_cases h : (hdrMatch ln && !buf.isEmpty) = true
    · simp [sectionsGo, h, ih]
    · simp [sectionsGo, h, ih]

/-- Every line belongs to exactly one Section: concatenating the Sections
restores the whole body. -/
theorem split_sections_flatten (md : Str) : (split_sections md).flatten = md := by
  simp [split_sections, sectionsGo_flatten, splitlines_flatten]

/-- Every section produced by `sectionsGo` is a contiguous piece of the
buffered lines followed by the remaining lines. -/
theorem sectionsGo_mem_contig (lines : List Str) :
    ∀ buf sec, sec ∈ sectionsGo buf lines → sec <:+: buf.flatten ++ lines.flatten := by
  induction lines with
  | nil =>
    intro buf sec hmem
    by_cases h : buf = []
    · simp [sectionsGo, h] at hmem
    · simp [sectionsGo, h] at hmem
      exact ⟨[], [], by simp [hmem]⟩
  | cons ln rest ih =>
    intro buf sec hmem
    by_cases h : (hdrMatch ln && !buf.isEmpty) = true
    · simp only [sectionsGo, h, if_pos, List.mem_cons] at hmem
      rcases hmem with rfl | hmem
      · exact ⟨[], (ln :: rest).flatten, by simp⟩
      · have h1 := ih [ln] sec hmem
        have h2 : [ln].flatten ++ rest.flatten <:+: buf.flatten ++ (ln :: rest).flatten :=
          ⟨buf.flatten, [], by simp⟩
        exact h1.trans h2
    · simp only [sectionsGo, h, if_neg] at hmem
      have h1 := ih (buf ++ [ln]) sec hmem
      simpa using h1

/-- Every Section is a contiguous piece of the document body. -/
theorem split_sections_mem_contig (md sec : Str) (h : sec ∈ split_sections md) :
    sec <:+: md := by
  have h1 := sectionsGo_mem_contig (splitlines md) [] sec (by simpa [split_sections] using h)
  simpa [splitlines_flatten] using h1

/-- Flattening a list of singletons is the identity. -/
theorem flatten_map_singleton (l : List Str) :
    (l.map (fun a => [a])).flatten = l := by
  induction l with
  | nil => simp
  | cons a t ih => simp [ih]

/-- When the token estimator is monotone along contiguous pieces and the whole
body is within budget, the second phase of `_split_markdown` emits every
Section unchanged. -/
theorem split_markdown_with_small (tl : Str → Nat) (slice : Str → List Str)
    (md : Str) (hmono : ∀ s t : Str, s <:+: t → tl s ≤ tl t)
    (hbud : tl md ≤ CHUNK_TOKENS) :
    split_markdown_with tl slice md = split_sections md := by
  unfold split_markdown_with
  have hcong : ∀ seg ∈ split_sections md,
      (if tl seg ≤ CHUNK_TOKENS then [seg] else slice seg) = [seg] := by
    intro seg hs
    exact if_pos (le_trans (hmono seg md (split_sections_mem_contig md seg hs)) hbud)
  rw [List.map_congr_left hcong, flatten_map_singleton]

/-- A concrete lossless character-level tokenizer, used to instantiate the
abstract encoder in witnesses. -/
def charEncoder : Encoder where
  enc s := s.map Char.toNat
  dec l := l.map Char.ofNat
  dec_enc s := by
    induction s with
    | nil => simp
    | cons c cs ih => simp [ih, Char.ofNat_toNat]

/-- A small two-section document used in witnesses. -/
def mdSample : Str := ("# t\nhello\n## s\nworld\n").data

/-- C1: for every document body whose estimated token length is at most the
chunk budget — measured by whichever estimator is in use — `_split_markdown`
returns exactly one Chunk per Section (the chunk list is the section list
itself), and concatenating the chunks in order reproduces the body.  The
exact-tokenizer half assumes only its own token budget (for any lossless
tokenizer whose length is monotone along contiguous pieces, as the spec
requires of the Token Estimator); the character-fallback half assumes only
the character budget. -/
theorem c1_small_doc_one_chunk_per_section (E : Encoder) (md : Str)
    (hmono : ∀ s t : Str, s <:+: t → (E.enc s).length ≤ (E.enc t).length) :
    ((E.enc md).length ≤ CHUNK_TOKENS →
      split_markdown_exact E md = split_sections md
      ∧ (split_markdown_exact E md).flatten = md)
    ∧ (token_len_fallback md ≤ CHUNK_TOKENS →
      split_markdown_fallback md = split_sections md
      ∧ (split_markdown_fallback md).flatten = md) := by
  constructor
  · intro hexact
    have he : split_markdown_exact E md = split_sections md :=
      split_markdown_with_small _ _ md hmono hexact
    exact ⟨he, by rw [he, split_sections_flatten]⟩
  · intro hfall
    have hf : split_markdown_fallback md = split_sections md :=
      split_markdown_with_small _ _ md (fun s t h => h.length_le) hfall
    exact ⟨hf, by rw [hf, split_sections_flatten]⟩

/-- Witness for C1 at a concrete two-section document and the concrete
character-level tokenizer. -/
theorem c1_witness :
    ((charEncoder.enc mdSample).length ≤ CHUNK_TOKENS
      ∧ token_len_fallback mdSample ≤ CHUNK_TOKENS)
    ∧ (((charEncoder.enc mdSample).length ≤ CHUNK_TOKENS →
        split_markdown_exact charEncoder mdSample = split_sections mdSample
        ∧ (split_markdown_exact charEncoder mdSample).flatten = mdSample)
      ∧ (token_len_fallback mdSample ≤ CHUNK_TOKENS →
        split_markdown_fallback mdSample = split_sections mdSample
        ∧ (split_markdown_fallback mdSample).flatten = mdSample)) :=
  ⟨⟨by decide, by decide⟩,
    c1_small_doc_one_chunk_per_section charEncoder mdSample
      (fun s t h => by
        simp only [charEncoder, List.length_map]
        exact h.length_le)⟩

/-- Unfolding `sliceWindows` on the empty list. -/
theorem sliceWindows_nil (w st : Nat) : sliceWindows w st ([] : List α) = [] := by
  simp [sliceWindows]

/-- Unfolding one iteration of the slicing loop on a non-empty list with a
non-zero stride. -/
theorem sliceWindows_cons_eq (w st : Nat) (hst : st ≠ 0) (c : α) (cs : List α) :
    sliceWindows w st (c :: cs) =
      (c :: cs).take w :: sliceWindows w st ((c :: cs).drop st) := by
  rw [sliceWindows]
  simp [hst]

/-- The `i`-th window of the slicing loop is `l[i*stride : i*stride+window]`;
it exists exactly when the loop index `i*stride` is still below the length of
the list. -/
theorem sliceWindows_getElem? (w st : Nat) (hst : st ≠ 0) :
    ∀ (i : Nat) (l : List α),
      (sliceWindows w st l)[i]? =
        if l.length ≤ i * st then none
        else some ((l.drop (i * st)).take w) := by
  intro i
  induction i with
  | zero =>
    intro l
    cases l with
    | nil => simp [sliceWindows_nil]
    | cons c cs => simp [sliceWindows_cons_eq w st hst]
  | succ i ih =>
    intro l
    cases l with
    | nil => simp [sliceWindows_nil]
    | cons c cs =>
      rw [sliceWindows_cons_eq w st hst, List.getElem?_cons_succ,
        ih ((c :: cs).drop st)]
      rw [List.drop_drop, List.length_drop]
      have harith : st + i * st = (i + 1) * st := by ring
      rw [harith]
      have harith2 : (i + 1) * st = i * st + st := by ring
      by_cases hcond : (c :: cs).length - st ≤ i * st
      · rw [if_pos hcond, if_pos (by omega)]
      · rw [if_neg hcond, if_neg (by omega)]

/-- The members of the slicing loop's output are exactly the windows
`l[i*stride : i*stride+window]` for the loop indices `i*stride < len(l)`. -/
theorem mem_sliceWindows_iff (w st : Nat) (hst : st ≠ 0) (l x : List α) :
    x ∈ sliceWindows w st l ↔
      ∃ i, i * st < l.length ∧ x = (l.drop (i * st)).take w := by
  rw [List.mem_iff_getElem?]
  constructor
  · rintro ⟨i, hi⟩
    rw [sliceWindows_getElem? w st hst i l] at hi
    by_cases hd : l.length ≤ i * st
    · simp [hd] at hi
    · refine ⟨i, by omega, ?_⟩
      rw [if_neg hd] at hi
      exact (Option.some_injective _ hi).symm
  · rintro ⟨i, hd, rfl⟩
    refine ⟨i, ?_⟩
    rw [sliceWindows_getElem? w st hst i l, if_neg (by omega)]

/-- When the window size equals the stride, the slicing loop cuts the list
into disjoint consecutive pieces: concatenating them restores the list. -/
theorem sliceWindows_flatten_self (st : Nat) (hst : st ≠ 0) :
    ∀ l : List α, (sliceWindows st st l).flatten = l := by
  intro l
  match l with
  | [] => simp [sliceWindows_nil]
  | c :: cs =>
    rw [sliceWindows_cons_eq st st hst, List.flatten_cons,
      sliceWindows_flatten_self st hst ((c :: cs).drop st),
      List.take_append_drop]
termination_by l => l.length
decreasing_by
  simp only [List.length_drop, List.length_cons]
  omega

/-- C4: the configured chunk overlap is strictly smaller than the chunk
budget, hence both the token stride of the exact-tokenizer slicing loop and
the character step of the fallback slicing loop are strictly positive, so
every slicing loop the configuration reaches makes progress. -/
theorem c4_stride_positive :
    CHUNK_OVERLAP < CHUNK_TOKENS ∧ 0 < tokStride ∧ 0 < charStep := by
  refine ⟨?_, ?_, ?_⟩ <;> norm_num [CHUNK_OVERLAP, CHUNK_TOKENS, tokStride, charStep]

/-- A 40000-character headerless body, used to exhibit the behaviour of the
character-fallback slicer on an over-budget section. -/
def seg2 : Str := List.replicate 40000 'a'

/-- Three 31200-character blocks of distinct letters; their concatenation is a
93600-character headerless body whose fallback slicing yields three chunks. -/
def segA : Str := List.replicate 31200 'a'

/-- Second block of the three-chunk body. -/
def segB : Str := List.replicate 31200 'b'

/-- Third block of the three-chunk body. -/
def segC : Str := List.replicate 31200 'c'

/-- The concatenated three-block body. -/
def seg3 : Str := segA ++ segB ++ segC

/-- `splitlinesGo` on a newline-free remainder yields the single pending
line. -/
theorem splitlinesGo_no_newline (s : Str) :
    ∀ acc : Str, '\n' ∉ s →
      splitlinesGo acc s =
        if acc.reverse ++ s = [] then [] else [acc.reverse ++ s] := by
  induction s with
  | nil =>
    intro acc _
    by_cases h : acc = [] <;> simp [splitlinesGo, h]
  | cons c cs ih =>
    intro acc hnl
    have hc : c ≠ '\n' := fun h => hnl (h ▸ List.mem_cons_self c cs)
    have hcs : '\n' ∉ cs := fun h => hnl (List.mem_cons_of_mem c h)
    rw [splitlinesGo, if_neg hc, ih (c :: acc) hcs]
    simp

/-- `splitlines` on a non-empty newline-free body yields that body as its
single line. -/
theorem splitlines_no_newline (s : Str) (hnl : '\n' ∉ s) (hne : s ≠ []) :
    splitlines s = [s] := by
  rw [splitlines, splitlinesGo_no_newline s [] hnl]
  simp [hne]

/-- A non-empty newline-free body is one single Section. -/
theorem split_sections_no_newline (s : Str) (hnl : '\n' ∉ s) (hne : s ≠ []) :
    split_sections s = [s] := by
  rw [split_sections, splitlines_no_newline s hnl hne]
  simp [sectionsGo]

/-- Unfolding one iteration of the slicing loop on a list known to be
non-empty. -/
theorem sliceWindows_ne_nil_eq (w st : Nat) (hst : st ≠ 0) (l : List α)
    (hne : l ≠ []) :
    sliceWindows w st l = l.take w :: sliceWindows w st (l.drop st) := by
  cases l with
  | nil => exact absurd rfl hne
  | cons c cs => exact sliceWindows_cons_eq w st hst c cs

/-- The configured character step is 31200. -/
theorem charStep_eq : charStep = 31200 := by
  norm_num [charStep, CHUNK_TOKENS, CHUNK_OVERLAP]

/-- The configured token stride is 7800. -/
theorem tokStride_eq : tokStride = 7800 := by
  norm_num [tokStride, CHUNK_TOKENS, CHUNK_OVERLAP]

/-- A replicate of a positive count is not the empty list. -/
theorem replicate_pos_ne_nil (n : Nat) (a : α) (hn : n ≠ 0) :
    List.replicate n a ≠ [] := by
  intro h
  have hl := congrArg List.length h
  rw [List.length_replicate, List.length_nil] at hl
  exact hn hl

/-- The newline character is not a member of a replicate of another
character. -/
theorem newline_not_mem_replicate (n : Nat) (a : Char) (ha : a ≠ '\n') :
    '\n' ∉ List.replicate n a := by
  intro hmem
  exact ha (List.eq_of_mem_replicate hmem).symm

/-- The character-fallback slicer cuts the 40000-character section into a
31200-character chunk followed by an 8800-character chunk. -/
theorem slice_chars_seg2 :
    slice_chars seg2 = [List.replicate 31200 'a', List.replicate 8800 'a'] := by
  rw [slice_chars, charStep_eq, seg2]
  rw [sliceWindows_ne_nil_eq 31200 31200 (by norm_num) _
    (replicate_pos_ne_nil 40000 'a' (by norm_num))]
  rw [List.take_replicate, List.drop_replicate]
  norm_num
  rw [sliceWindows_ne_nil_eq 31200 31200 (by norm_num) _
    (replicate_pos_ne_nil 8800 'a' (by norm_num))]
  rw [List.take_replicate, List.drop_replicate]
  norm_num [sliceWindows_nil]

/-- The whole 40000-character body is one section, and the fallback mode
slices it into the two chunks above. -/
theorem split_markdown_fallback_seg2 :
    split_markdown_fallback seg2 =
      [List.replicate 31200 'a', List.replicate 8800 'a'] := by
  have hnl : '\n' ∉ seg2 := newline_not_mem_replicate 40000 'a' (by decide)
  have hne : seg2 ≠ [] := replicate_pos_ne_nil 40000 'a' (by norm_num)
  rw [split_markdown_fallback, split_markdown_with,
    split_sections_no_newline seg2 hnl hne]
  have hbig : ¬ token_len_fallback seg2 ≤ CHUNK_TOKENS := by
    simp only [token_len_fallback, seg2, List.length_replicate, CHUNK_TOKENS]
    norm_num
  simp only [List.map_cons, List.map_nil, if_neg hbig, List.flatten_cons,
    List.flatten_nil, List.append_nil]
  exact slice_chars_seg2

/-- C2 counterexample: on a 40000-character headerless document in the
character-fallback mode, `_split_markdown` produces a chunk whose length as
measured by the very estimator in use (`_token_len`, the character count) is
31200, strictly above the chunk budget `CHUNK_TOKENS = 8000`. -/
theorem c2_counterexample :
    split_markdown_fallback seg2 =
      [List.replicate 31200 'a', List.replicate 8800 'a']
    ∧ List.replicate 31200 'a' ∈ split_markdown_fallback seg2
    ∧ CHUNK_TOKENS < token_len_fallback (List.replicate 31200 'a') := by
  refine ⟨split_markdown_fallback_seg2, ?_, ?_⟩
  · rw [split_markdown_fallback_seg2]
    exact List.mem_cons_self _ _
  · simp only [token_len_fallback, List.length_replicate, CHUNK_TOKENS]
    norm_num

/-- C2 amended: every chunk of the exact-tokenizer mode is the decoding of a
token slice of at most `CHUNK_TOKENS` tokens, while every chunk of the
character-fallback mode is only bounded by
`(CHUNK_TOKENS - CHUNK_OVERLAP) * 4 = 31200` characters — a bound above the
chunk budget as measured by the fallback estimator. -/
theorem c2_amended_chunk_bounds (E : Encoder) (md : Str) (c cf : Str)
    (hc : c ∈ split_markdown_exact E md)
    (hcf : cf ∈ split_markdown_fallback md) :
    (∃ ts : List Nat, c = E.dec ts ∧ ts.length ≤ CHUNK_TOKENS)
    ∧ token_len_fallback cf ≤ charStep := by
  constructor
  · rw [split_markdown_exact, split_markdown_with, List.mem_flatten] at hc
    obtain ⟨piece, hpiece, hcp⟩ := hc
    rw [List.mem_map] at hpiece
    obtain ⟨seg, _, rfl⟩ := hpiece
    by_cases hsmall : (E.enc seg).length ≤ CHUNK_TOKENS
    · rw [if_pos hsmall] at hcp
      simp only [List.mem_singleton] at hcp
      subst hcp
      exact ⟨E.enc c, (E.dec_enc c).symm, hsmall⟩
    · rw [if_neg hsmall] at hcp
      rw [slice_tokens, List.mem_map] at hcp
      obtain ⟨w, hw, rfl⟩ := hcp
      rw [mem_sliceWindows_iff _ _ (by rw [tokStride_eq]; norm_num)] at hw
      obtain ⟨i, _, rfl⟩ := hw
      exact ⟨_, rfl, List.length_take_le _ _⟩
  · rw [split_markdown_fallback, split_markdown_with, List.mem_flatten] at hcf
    obtain ⟨piece, hpiece, hcp⟩ := hcf
    rw [List.mem_map] at hpiece
    obtain ⟨seg, _, rfl⟩ := hpiece
    by_cases hsmall : token_len_fallback seg ≤ CHUNK_TOKENS
    · rw [if_pos hsmall] at hcp
      simp only [List.mem_singleton] at hcp
      subst hcp
      rw [charStep_eq]
      simp only [CHUNK_TOKENS] at hsmall
      omega
    · rw [if_neg hsmall] at hcp
      rw [slice_chars, mem_sliceWindows_iff _ _ (by rw [charStep_eq]; norm_num)] at hcp
      obtain ⟨i, _, rfl⟩ := hcp
      exact List.length_take_le _ _

/-- Witness for C2 amended, at the two-section sample document: its first
section is a chunk in both modes, is the decoding of a token slice within
budget, and is within the fallback character bound. -/
theorem c2_witness :
    (("# t\nhello\n").data ∈ split_markdown_exact charEncoder mdSample
      ∧ ("# t\nhello\n").data ∈ split_markdown_fallback mdSample)
    ∧ ((∃ ts : List Nat,
          ("# t\nhello\n").data = charEncoder.dec ts ∧ ts.length ≤ CHUNK_TOKENS)
      ∧ token_len_fallback (("# t\nhello\n").data) ≤ charStep) :=
  ⟨⟨by decide, by decide⟩,
    c2_amended_chunk_bounds charEncoder mdSample _ _ (by decide) (by decide)⟩

/-- The character-fallback slicer cuts the 93600-character three-block section
into its three 31200-character blocks. -/
theorem slice_chars_seg3 : slice_chars seg3 = [segA, segB, segC] := by
  have hA : segA.length = 31200 := by
    rw [segA, List.length_replicate]
  have hB : segB.length = 31200 := by
    rw [segB, List.length_replicate]
  rw [slice_chars, charStep_eq, seg3, List.append_assoc]
  rw [sliceWindows_ne_nil_eq 31200 31200 (by norm_num) _
    (by
      intro h
      have hl := congrArg List.length h
      simp only [List.length_append, List.length_nil, hA] at hl
      omega)]
  rw [List.take_left' hA, List.drop_left' hA]
  rw [sliceWindows_ne_nil_eq 31200 31200 (by norm_num) _
    (by
      intro h
      have hl := congrArg List.length h
      simp only [List.length_append, List.length_nil, hB] at hl
      omega)]
  rw [List.take_left' hB, List.drop_left' hB]
  rw [sliceWindows_ne_nil_eq 31200 31200 (by norm_num) segC
    (replicate_pos_ne_nil 31200 'c' (by norm_num))]
  rw [segC, List.take_replicate, List.drop_replicate]
  norm_num [sliceWindows_nil]

/-- The three-block body is one section and the fallback mode slices it into
its three blocks. -/
theorem split_markdown_fallback_seg3 :
    split_markdown_fallback seg3 = [segA, segB, segC] := by
  have hnl : '\n' ∉ seg3 := by
    rw [seg3]
    intro hmem
    rcases List.mem_append.mp hmem with hmem2 | hc
    · rcases List.mem_append.mp hmem2 with ha | hb
      · exact newline_not_mem_replicate 31200 'a' (by decide) ha
      · exact newline_not_mem_replicate 31200 'b' (by decide) hb
    · exact newline_not_mem_replicate 31200 'c' (by decide) hc
  have hne : seg3 ≠ [] := by
    intro h
    have hl := congrArg List.length h
    simp only [seg3, segA, segB, segC, List.length_append,
      List.length_replicate, List.length_nil] at hl
    omega
  rw [split_markdown_fallback, split_markdown_with,
    split_sections_no_newline seg3 hnl hne]
  have hbig : ¬ token_len_fallback seg3 ≤ CHUNK_TOKENS := by
    simp only [token_len_fallback, seg3, segA, segB, segC, List.length_append,
      List.length_replicate, CHUNK_TOKENS]
    norm_num
  simp only [List.map_cons, List.map_nil, if_neg hbig, List.flatten_cons,
    List.flatten_nil, List.append_nil]
  exact slice_chars_seg3

/-- C3 counterexample: in the character-fallback mode the slicing of an
over-budget section produces consecutive chunks that share no characters at
all — the 200-character (or, reading the overlap in the 4-characters-per-token
unit, 800-character) tail of a chunk differs from the corresponding head of
the next chunk, although the next chunk is not the final window. -/
theorem c3_counterexample :
    split_markdown_fallback seg3 = [segA, segB, segC]
    ∧ segA.drop (segA.length - CHUNK_OVERLAP) ≠ segB.take CHUNK_OVERLAP
    ∧ segA.drop (segA.length - CHUNK_OVERLAP * 4) ≠
        segB.take (CHUNK_OVERLAP * 4) := by
  refine ⟨split_markdown_fallback_seg3, ?_, ?_⟩
  · simp only [segA, segB, CHUNK_OVERLAP, List.length_replicate,
      List.drop_replicate, List.take_replicate]
    norm_num
    decide
  · simp only [segA, segB, CHUNK_OVERLAP, List.length_replicate,
      List.drop_replicate, List.take_replicate]
    norm_num
    decide

/-- C3 amended: in the exact-tokenizer mode, an over-budget section is sliced
into token windows of size `CHUNK_TOKENS` advancing by
`CHUNK_TOKENS - CHUNK_OVERLAP`, so that a window whose successor is not the
final window is full and overlaps its successor by exactly `CHUNK_OVERLAP`
tokens; in the character-fallback mode the windows are instead disjoint
(window size equals the stride), so concatenating them restores the section
with no overlap at all. -/
theorem c3_amended_overlap (E : Encoder) (seg : Str) (i : Nat)
    (hnotlast : (i + 2) * tokStride < (E.enc seg).length) :
    (∃ wi wj : List Nat,
      (sliceWindows CHUNK_TOKENS tokStride (E.enc seg))[i]? = some wi
      ∧ (sliceWindows CHUNK_TOKENS tokStride (E.enc seg))[i + 1]? = some wj
      ∧ (slice_tokens E seg)[i]? = some (E.dec wi)
      ∧ (slice_tokens E seg)[i + 1]? = some (E.dec wj)
      ∧ wi.length = CHUNK_TOKENS
      ∧ wi.drop tokStride = wj.take CHUNK_OVERLAP
      ∧ (wi.drop tokStride).length = CHUNK_OVERLAP)
    ∧ (slice_chars seg).flatten = seg := by
  have hst : tokStride ≠ 0 := by rw [tokStride_eq]; norm_num
  have hmul1 : (i + 1) * tokStride = i * tokStride + tokStride := by ring
  have hmul2 : (i + 2) * tokStride = i * tokStride + 2 * tokStride := by ring
  have hts : tokStride = 7800 := tokStride_eq
  have hw : CHUNK_TOKENS = 8000 := rfl
  have hov : CHUNK_OVERLAP = 200 := rfl
  set l := E.enc seg with hl
  constructor
  · refine ⟨(l.drop (i * tokStride)).take CHUNK_TOKENS,
      (l.drop ((i + 1) * tokStride)).take CHUNK_TOKENS, ?_, ?_, ?_, ?_, ?_, ?_, ?_⟩
    · rw [sliceWindows_getElem? _ _ hst i l, if_neg (by omega)]
    · rw [sliceWindows_getElem? _ _ hst (i + 1) l, if_neg (by omega)]
    · rw [slice_tokens, List.getElem?_map,
        sliceWindows_getElem? _ _ hst i l, if_neg (by omega)]
      rfl
    · rw [slice_tokens, List.getElem?_map,
        sliceWindows_getElem? _ _ hst (i + 1) l, if_neg (by omega)]
      rfl
    · rw [List.length_take, List.length_drop]
      omega
    · rw [List.drop_take, List.drop_drop, List.take_take]
      have h1 : i * tokStride + tokStride = (i + 1) * tokStride := by ring
      have h2 : CHUNK_TOKENS - tokStride = CHUNK_OVERLAP := by
        rw [hts, hw, hov]
      have h3 : CHUNK_OVERLAP ⊓ CHUNK_TOKENS = CHUNK_OVERLAP := by
        rw [hw, hov]
        omega
      rw [h1, h2, h3]
    · rw [List.drop_take, List.drop_drop, List.length_take, List.length_drop]
      have hlen2 : i * tokStride + 2 * tokStride < l.length := by omega
      rw [hts, hw, hov]
      rw [hts] at hlen2
      omega
  · exact sliceWindows_flatten_self charStep (by rw [charStep_eq]; norm_num) seg

/-- A 16000-character headerless section: in the exact character-level
tokenizer it yields three token windows, so its first window pair is not
final. -/
def segW : Str := List.replicate 16000 'a'

/-- Witness for C3 amended at the concrete character-level tokenizer, the
16000-character section and the window pair at index 0. -/
theorem c3_witness :
    (0 + 2) * tokStride < (charEncoder.enc segW).length
    ∧ ((∃ wi wj : List Nat,
        (sliceWindows CHUNK_TOKENS tokStride (charEncoder.enc segW))[0]? = some wi
        ∧ (sliceWindows CHUNK_TOKENS tokStride (charEncoder.enc segW))[0 + 1]? = some wj
        ∧ (slice_tokens charEncoder segW)[0]? = some (charEncoder.dec wi)
        ∧ (slice_tokens charEncoder segW)[0 + 1]? = some (charEncoder.dec wj)
        ∧ wi.length = CHUNK_TOKENS
        ∧ wi.drop tokStride = wj.take CHUNK_OVERLAP
        ∧ (wi.drop tokStride).length = CHUNK_OVERLAP)
      ∧ (slice_chars segW).flatten = segW) := by
  have hlen : (0 + 2) * tokStride < (charEncoder.enc segW).length := by
    simp only [charEncoder, segW, List.length_map, List.length_replicate,
      tokStride_eq]
    norm_num
  exact ⟨hlen, c3_amended_overlap charEncoder segW 0 hlen⟩

/-- The sentinel marker prepended to processed source file names
(AI_summarize.py lines 183 and 192). -/
def dsTag : Str := ("[ds]").data

/-- `p.name.startswith("[ds]")` (AI_summarize.py line 183). -/
def marked (n : Str) : Bool := dsTag.isPrefixOf n

/-- The startup scan (AI_summarize.py line 183): the files of the source tree
whose names do not carry the sentinel marker. -/
def scan (files : List Str) : List Str := files.filter (fun n => !(marked n))

/-- The sentinel-marked name `"[ds]" + name` of a processed file
(AI_summarize.py line 192). -/
def dsName (n : Str) : Str := dsTag ++ n

/-- Marking one processed source file (AI_summarize.py lines 192-195): a
stale file already carrying the target sentinel name is unlinked, then the
source file is renamed to the sentinel name. -/
def markFile (fs : List Str) (md : Str) : List Str :=
  (fs.filter (fun n => n ≠ dsName md)).map
    (fun n => if n = md then dsName md else n)

/-- The mutable state of the `main` loop: the names present in the source
directory, and the success and failure tallies. -/
structure RunState where
  files : List Str
  nSuccess : Nat
  nFail : Nat

/-- One iteration of the document loop (AI_summarize.py lines 187-199).
`procOk md` tells whether `process_one` succeeds on `md`, and `markOk md`
whether the subsequent unlink-and-rename marking succeeds.  After a
processing success the success tally is incremented; if the marking then
raises, the per-document handler additionally increments the failure tally
and the source file keeps its unmarked name (the marking is embedded as
all-or-nothing); a processing failure increments only the failure tally. -/
def runStep (procOk markOk : Str → Bool) (st : RunState) (md : Str) : RunState :=
  if procOk md then
    if markOk md then ⟨markFile st.files md, st.nSuccess + 1, st.nFail⟩
    else ⟨st.files, st.nSuccess + 1, st.nFail + 1⟩
  else ⟨st.files, st.nSuccess, st.nFail + 1⟩

/-- The whole run of `main` (AI_summarize.py lines 178-202) over an initial
directory listing: the scan is computed once up front, then every scanned
file is processed in order. -/
def runMain (procOk markOk : Str → Bool) (files : List Str) : RunState :=
  (scan files).foldl (runStep procOk markOk) ⟨files, 0, 0⟩

/-- A sentinel-marked name always carries the marker. -/
theorem marked_dsName (n : Str) : marked (dsName n) = true := by
  rw [marked, dsName, List.isPrefixOf_iff_prefix]
  exact List.prefix_append dsTag n

/-- An unmarked name is never a sentinel-marked name. -/
theorem ne_dsName_of_unmarked (n m : Str) (hn : marked n = false) :
    n ≠ dsName m := by
  intro h
  rw [h, marked_dsName] at hn
  exact Bool.noConfusion hn

/-- Sentinel naming is injective. -/
theorem dsName_inj (n m : Str) (h : dsName n = dsName m) : n = m :=
  List.append_cancel_left h

/-- Marking file `md` neither adds nor removes an unmarked bystander `x`. -/
theorem mem_markFile_iff_of_ne (fs : List Str) (md x : Str)
    (hx : marked x = false) (hne : x ≠ md) :
    x ∈ markFile fs md ↔ x ∈ fs := by
  rw [markFile]
  constructor
  · intro hmem
    rw [List.mem_map] at hmem
    obtain ⟨y, hy, hyx⟩ := hmem
    by_cases hymd : y = md
    · rw [if_pos hymd] at hyx
      exact absurd hyx.symm (ne_dsName_of_unmarked x md hx)
    · rw [if_neg hymd] at hyx
      exact hyx ▸ List.mem_of_mem_filter hy
  · intro hmem
    rw [List.mem_map]
    refine ⟨x, ?_, if_neg hne⟩
    rw [List.mem_filter]
    exact ⟨hmem, by simp [ne_dsName_of_unmarked x md hx]⟩

/-- Marking file `md` neither adds nor removes the sentinel name of a
different unmarked file `m`. -/
theorem dsName_mem_markFile_iff_of_ne (fs : List Str) (md m : Str)
    (hmd : marked md = false) (hne : m ≠ md) :
    dsName m ∈ markFile fs md ↔ dsName m ∈ fs := by
  rw [markFile]
  constructor
  · intro hmem
    rw [List.mem_map] at hmem
    obtain ⟨y, hy, hyx⟩ := hmem
    by_cases hymd : y = md
    · rw [if_pos hymd] at hyx
      exact absurd (dsName_inj md m hyx) (Ne.symm hne)
    · rw [if_neg hymd] at hyx
      exact hyx ▸ List.mem_of_mem_filter hy
  · intro hmem
    rw [List.mem_map]
    have h1 : dsName m ≠ dsName md := fun h => hne (dsName_inj m md h)
    have h2 : dsName m ≠ md :=
      fun h => Ne.symm (ne_dsName_of_unmarked md m hmd) h
    refine ⟨dsName m, ?_, if_neg h2⟩
    rw [List.mem_filter]
    exact ⟨hmem, by simp [h1]⟩

/-- After marking `md`, the unmarked name `md` is gone from the listing. -/
theorem not_mem_markFile_self (fs : List Str) (md : Str)
    (hmd : marked md = false) :
    md ∉ markFile fs md := by
  intro hmem
  rw [markFile, List.mem_map] at hmem
  obtain ⟨y, hy, hyx⟩ := hmem
  by_cases hymd : y = md
  · rw [if_pos hymd] at hyx
    exact ne_dsName_of_unmarked md md hmd hyx.symm
  · rw [if_neg hymd] at hyx
    exact hymd hyx

/-- After marking a listed unmarked file `md`, its sentinel name is in the
listing. -/
theorem dsName_mem_markFile_self (fs : List Str) (md : Str)
    (hmem : md ∈ fs) (hmd : marked md = false) :
    dsName md ∈ markFile fs md := by
  rw [markFile, List.mem_map]
  refine ⟨md, ?_, if_pos rfl⟩
  rw [List.mem_filter]
  exact ⟨hmem, by simp [ne_dsName_of_unmarked md md hmd]⟩

/-- One loop iteration over a different unmarked document leaves both the
unmarked name and the sentinel name of an unmarked bystander untouched. -/
theorem runStep_mem_iff (procOk markOk : Str → Bool) (st : RunState)
    (md x : Str) (hx : marked x = false) (hne : x ≠ md)
    (hmd : marked md = false) :
    (x ∈ (runStep procOk markOk st md).files ↔ x ∈ st.files)
    ∧ (dsName x ∈ (runStep procOk markOk st md).files ↔ dsName x ∈ st.files) := by
  rw [runStep]
  by_cases hp : procOk md
  · by_cases hk : markOk md
    · rw [if_pos hp, if_pos hk]
      exact ⟨mem_markFile_iff_of_ne st.files md x hx hne,
        dsName_mem_markFile_iff_of_ne st.files md x hmd hne⟩
    · rw [if_pos hp, if_neg hk]
      exact ⟨Iff.rfl, Iff.rfl⟩
  · rw [if_neg hp]
    exact ⟨Iff.rfl, Iff.rfl⟩

/-- Folding the loop over documents that do not include border file `x`
leaves both names of the unmarked `x` untouched. -/
theorem foldl_runStep_mem_iff (procOk markOk : Str → Bool) (l : List Str)
    (x : Str) (hx : marked x = false) (hxl : x ∉ l)
    (hl : ∀ y ∈ l, marked y = false) :
    ∀ st : RunState,
      (x ∈ (l.foldl (runStep procOk markOk) st).files ↔ x ∈ st.files)
      ∧ (dsName x ∈ (l.foldl (runStep procOk markOk) st).files
          ↔ dsName x ∈ st.files) := by
  induction l with
  | nil => intro st; exact ⟨Iff.rfl, Iff.rfl⟩
  | cons md rest ih =>
    intro st
    have hmd : marked md = false := hl md (List.mem_cons_self md rest)
    have hne : x ≠ md := fun h => hxl (h ▸ List.mem_cons_self md rest)
    have hxr : x ∉ rest := fun h => hxl (List.mem_cons_of_mem md h)
    have hlr : ∀ y ∈ rest, marked y = false :=
      fun y hy => hl y (List.mem_cons_of_mem md hy)
    rw [List.foldl_cons]
    obtain ⟨ih1, ih2⟩ := ih hxr hlr (runStep procOk markOk st md)
    obtain ⟨s1, s2⟩ := runStep_mem_iff procOk markOk st md x hx hne hmd
    exact ⟨ih1.trans s1, ih2.trans s2⟩

/-- Splitting the scan list around one scanned document. -/
theorem scan_split (files : List Str) (hnd : files.Nodup) (md : Str)
    (hmem : md ∈ scan files) :
    ∃ l₁ l₂, scan files = l₁ ++ md :: l₂ ∧ md ∉ l₁ ∧ md ∉ l₂
      ∧ (∀ y ∈ l₁, marked y = false) ∧ (∀ y ∈ l₂, marked y = false) := by
  obtain ⟨l₁, l₂, hsplit⟩ := List.append_of_mem hmem
  have hscannd : (scan files).Nodup := List.Nodup.filter _ hnd
  rw [hsplit, List.nodup_append] at hscannd
  obtain ⟨_, hnd2, hdisj⟩ := hscannd
  refine ⟨l₁, l₂, hsplit, ?_, ?_, ?_, ?_⟩
  · exact fun h => hdisj h (List.mem_cons_self md l₂)
  · exact (List.nodup_cons.mp hnd2).1
  · intro y hy
    have : y ∈ scan files := by
      rw [hsplit]; exact List.mem_append_left _ hy
    simpa using List.of_mem_filter this
  · intro y hy
    have : y ∈ scan files := by
      rw [hsplit]
      exact List.mem_append_right _ (List.mem_cons_of_mem md hy)
    simpa using List.of_mem_filter this

/-- A scanned document on which processing fails, or on which the marking
step fails, is still present under its unmarked name at the end of the run,
hence is scanned again by the next run. -/
theorem run_keeps_unprocessed (procOk markOk : Str → Bool) (files : List Str)
    (hnd : files.Nodup) (md : Str) (hmem : md ∈ scan files)
    (hun : procOk md = false ∨ markOk md = false) :
    md ∈ (runMain procOk markOk files).files
      ∧ md ∈ scan (runMain procOk markOk files).files := by
  have hmdu : marked md = false := by simpa using List.of_mem_filter hmem
  obtain ⟨l₁, l₂, hsplit, h1, h2, hm1, hm2⟩ := scan_split files hnd md hmem
  have hinit : md ∈ files := List.mem_of_mem_filter hmem
  have hstep : ∀ st : RunState, md ∈ st.files →
      md ∈ (runStep procOk markOk st md).files := by
    intro st hst
    rw [runStep]
    rcases hun with hp | hk
    · rw [if_neg (by simp [hp])]
      exact hst
    · by_cases hp : procOk md
      · rw [if_pos hp, if_neg (by simp [hk])]
        exact hst
      · rw [if_neg hp]
        exact hst
  have hfin : md ∈ (runMain procOk markOk files).files := by
    rw [runMain, hsplit, List.foldl_append, List.foldl_cons]
    have hmem1 :
        md ∈ (l₁.foldl (runStep procOk markOk) ⟨files, 0, 0⟩).files :=
      ((foldl_runStep_mem_iff procOk markOk l₁ md hmdu h1 hm1 _).1).mpr hinit
    exact ((foldl_runStep_mem_iff procOk markOk l₂ md hmdu h2 hm2 _).1).mpr
      (hstep _ hmem1)
  refine ⟨hfin, ?_⟩
  rw [scan, List.mem_filter]
  exact ⟨hfin, by simp [hmdu]⟩

/-- C5: the startup scan excludes every sentinel-marked name; a scanned
document whose processing and marking both succeed ends the run renamed to
its sentinel name — its unmarked name is gone from the listing and from any
rescan, so a rerun does not reprocess it — while a scanned document whose
processing fails keeps its unmarked name and is picked up again by the next
run's scan. -/
theorem c5_sentinel_rename_resume (procOk markOk : Str → Bool)
    (files : List Str) (hnd : files.Nodup) (md : Str) (hmem : md ∈ scan files) :
    (∀ n ∈ scan files, marked n = false)
    ∧ (procOk md = true → markOk md = true →
        dsName md ∈ (runMain procOk markOk files).files
        ∧ md ∉ (runMain procOk markOk files).files
        ∧ md ∉ scan (runMain procOk markOk files).files)
    ∧ (procOk md = false →
        md ∈ scan (runMain procOk markOk files).files) := by
  have hmdu : marked md = false := by simpa using List.of_mem_filter hmem
  refine ⟨?_, ?_, ?_⟩
  · intro n hn
    simpa using List.of_mem_filter hn
  · intro hp hk
    obtain ⟨l₁, l₂, hsplit, h1, h2, hm1, hm2⟩ := scan_split files hnd md hmem
    have hinit : md ∈ files := List.mem_of_mem_filter hmem
    have hmem1 :
        md ∈ (l₁.foldl (runStep procOk markOk) ⟨files, 0, 0⟩).files :=
      ((foldl_runStep_mem_iff procOk markOk l₁ md hmdu h1 hm1 _).1).mpr hinit
    set st₁ := l₁.foldl (runStep procOk markOk) (⟨files, 0, 0⟩ : RunState)
    have hstep : runStep procOk markOk st₁ md =
        ⟨markFile st₁.files md, st₁.nSuccess + 1, st₁.nFail⟩ := by
      rw [runStep, if_pos hp, if_pos hk]
    have hds : dsName md ∈ (runStep procOk markOk st₁ md).files := by
      rw [hstep]
      exact dsName_mem_markFile_self st₁.files md hmem1 hmdu
    have hgone : md ∉ (runStep procOk markOk st₁ md).files := by
      rw [hstep]
      exact not_mem_markFile_self st₁.files md hmdu
    have hfin1 : dsName md ∈ (runMain procOk markOk files).files := by
      rw [runMain, hsplit, List.foldl_append, List.foldl_cons]
      exact ((foldl_runStep_mem_iff procOk markOk l₂ md hmdu h2 hm2 _).2).mpr hds
    have hfin2 : md ∉ (runMain procOk markOk files).files := by
      rw [runMain, hsplit, List.foldl_append, List.foldl_cons]
      intro hcon
      exact hgone (((foldl_runStep_mem_iff procOk markOk l₂ md hmdu h2 hm2 _).1).mp hcon)
    exact ⟨hfin1, hfin2, fun hcon => hfin2 (List.mem_of_mem_filter hcon)⟩
  · intro hp
    exact (run_keeps_unprocessed procOk markOk files hnd md hmem (Or.inl hp)).2

/-- A concrete processing oracle for witnesses: only `a.md` succeeds. -/
def procOkW : Str → Bool := fun n => n == ("a.md").data

/-- A concrete marking oracle for witnesses: marking always succeeds. -/
def markOkW : Str → Bool := fun _ => true

/-- A concrete two-file source listing for witnesses. -/
def filesW : List Str := [("a.md").data, ("b.md").data]

/-- Witness for C5: a two-file listing in which the first document succeeds
end to end and the second fails in processing. -/
theorem c5_witness :
    (("a.md").data ∈ scan filesW ∧ filesW.Nodup)
    ∧ ((∀ n ∈ scan filesW, marked n = false)
      ∧ (procOkW ("a.md").data = true → markOkW ("a.md").data = true →
          dsName ("a.md").data ∈ (runMain procOkW markOkW filesW).files
          ∧ ("a.md").data ∉ (runMain procOkW markOkW filesW).files
          ∧ ("a.md").data ∉ scan (runMain procOkW markOkW filesW).files)
      ∧ (procOkW ("a.md").data = false →
          ("a.md").data ∈ scan (runMain procOkW markOkW filesW).files)) :=
  ⟨⟨by decide, by decide⟩,
    c5_sentinel_rename_resume procOkW markOkW filesW (by decide)
      ("a.md").data (by decide)⟩

/-- Folding the loop adds one success per document whose `process_one`
succeeds, and one failure per document whose processing or whose marking
fails. -/
theorem foldl_runStep_counts (procOk markOk : Str → Bool) (l : List Str) :
    ∀ st : RunState,
      (l.foldl (runStep procOk markOk) st).nSuccess
        = st.nSuccess + (l.filter (fun md => procOk md)).length
      ∧ (l.foldl (runStep procOk markOk) st).nFail
        = st.nFail + (l.filter (fun md => !(procOk md) || !(markOk md))).length := by
  induction l with
  | nil => intro st; simp
  | cons md rest ih =>
    intro st
    rw [List.foldl_cons]
    obtain ⟨ihS, ihF⟩ := ih (runStep procOk markOk st md)
    rw [List.filter_cons, List.filter_cons]
    constructor
    · rw [ihS, runStep]
      by_cases hp : procOk md
      · by_cases hk : markOk md <;> simp [hp, hk] <;> omega
      · simp [hp]
    · rw [ihF, runStep]
      by_cases hp : procOk md
      · by_cases hk : markOk md <;> simp [hp, hk] <;> omega
      · simp [hp]
        omega

/-- The final tallies of a run: one success per scanned document whose
processing succeeds, one failure per scanned document whose processing or
marking fails. -/
theorem runMain_counts (procOk markOk : Str → Bool) (files : List Str) :
    (runMain procOk markOk files).nSuccess
      = ((scan files).filter (fun md => procOk md)).length
    ∧ (runMain procOk markOk files).nFail
      = ((scan files).filter (fun md => !(procOk md) || !(markOk md))).length := by
  have h := foldl_runStep_counts procOk markOk (scan files) ⟨files, 0, 0⟩
  simpa [runMain] using h

/-- Success and failure counts sum to the document count plus the number of
documents counted twice (processing succeeded, marking failed). -/
theorem filter_counts_sum (l : List Str) (p k : Str → Bool) :
    (l.filter (fun md => p md)).length
      + (l.filter (fun md => !(p md) || !(k md))).length
    = l.length + (l.filter (fun md => p md && !(k md))).length := by
  induction l with
  | nil => simp
  | cons md rest ih =>
    rw [List.filter_cons, List.filter_cons, List.filter_cons]
    by_cases hp : p md
    · by_cases hk : k md <;> simp [hp, hk] <;> omega
    · simp [hp]
      omega

/-- C10: when `process_one` succeeds on a document but its marking step
fails, the document is counted in both tallies — over the whole run the
tallies sum to the scanned-document count plus the number of such
doubly-counted documents, which is then strictly above the scanned count —
and the document's source file remains unmarked, so the next run's scan picks
it up again. -/
theorem c10_double_tally (procOk markOk : Str → Bool) (files : List Str)
    (hnd : files.Nodup) (md : Str) (hmem : md ∈ scan files)
    (hp : procOk md = true) (hk : markOk md = false) :
    ((runMain procOk markOk files).nSuccess
        + (runMain procOk markOk files).nFail
      = (scan files).length
        + ((scan files).filter (fun x => procOk x && !(markOk x))).length)
    ∧ (scan files).length
        < (runMain procOk markOk files).nSuccess
          + (runMain procOk markOk files).nFail
    ∧ md ∈ scan (runMain procOk markOk files).files := by
  obtain ⟨hS, hF⟩ := runMain_counts procOk markOk files
  have hsum := filter_counts_sum (scan files) procOk markOk
  have heq : (runMain procOk markOk files).nSuccess
      + (runMain procOk markOk files).nFail
      = (scan files).length
        + ((scan files).filter (fun x => procOk x && !(markOk x))).length := by
    rw [hS, hF]
    exact hsum
  have hmemf : md ∈ (scan files).filter (fun x => procOk x && !(markOk x)) := by
    rw [List.mem_filter]
    exact ⟨hmem, by simp [hp, hk]⟩
  have hpos : 0 < ((scan files).filter (fun x => procOk x && !(markOk x))).length :=
    List.length_pos_of_mem hmemf
  exact ⟨heq, by omega,
    (run_keeps_unprocessed procOk markOk files hnd md hmem (Or.inr hk)).2⟩

/-- A processing oracle that always succeeds, for witnesses. -/
def procAllW : Str → Bool := fun _ => true

/-- A marking oracle that always fails, for witnesses. -/
def markFailW : Str → Bool := fun _ => false

/-- Witness for C10: both documents of a two-file listing process
successfully but fail to be marked, so the tallies sum to four over a scan of
two. -/
theorem c10_witness :
    (("a.md").data ∈ scan filesW ∧ filesW.Nodup
      ∧ procAllW ("a.md").data = true ∧ markFailW ("a.md").data = false)
    ∧ (((runMain procAllW markFailW filesW).nSuccess
          + (runMain procAllW markFailW filesW).nFail
        = (scan filesW).length
          + ((scan filesW).filter (fun x => procAllW x && !(markFailW x))).length)
      ∧ (scan filesW).length
          < (runMain procAllW markFailW filesW).nSuccess
            + (runMain procAllW markFailW filesW).nFail
      ∧ ("a.md").data ∈ scan (runMain procAllW markFailW filesW).files) :=
  ⟨⟨by decide, by decide, rfl, rfl⟩,
    c10_double_tally procAllW markFailW filesW (by decide) ("a.md").data
      (by decide) rfl rfl⟩

/-- A datetime as produced by Python's parsing: naive when `tzOffsetMin` is
`none`, timezone-aware otherwise (the offset east of UTC, in minutes). -/
structure PyDateTime where
  year : Nat
  month : Nat
  day : Nat
  hour : Nat
  minute : Nat
  second : Nat
  tzOffsetMin : Option Int
deriving DecidableEq

/-- A front-matter value: a string, a parsed datetime, or a list of strings
(tags). -/
inductive Val where
  | vstr : Str → Val
  | vdt : PyDateTime → Val
  | vlist : List Str → Val
deriving DecidableEq

/-- A front-matter mapping: an insertion-ordered association list with the
unique-key discipline of a Python dict. -/
abbrev Fm := List (Str × Val)

/-- Helper of `pyFind`: scan the remaining characters for the first
occurrence of the pattern, tracking the absolute index. -/
def findFromGo (pat : Str) : Nat → Str → Option Nat
  | i, [] => if pat.isPrefixOf [] then some i else none
  | i, s@(_ :: cs) =>
    if pat.isPrefixOf s then some i else findFromGo pat (i + 1) cs

/-- `text.find(pat, start)`: the smallest index at least `start` at which
`pat` occurs, `none` standing for Python's `-1`. -/
def pyFind (text pat : Str) (start : Nat) : Option Nat :=
  findFromGo pat start (text.drop start)

/-- `s.lstrip('\n')` (AI_summarize.py line 67). -/
def lstripNl (s : Str) : Str := s.dropWhile (fun c => c = '\n')

/-- The opening front-matter delimiter `---` with its newline
(AI_summarize.py line 63). -/
def fmOpenDelim : Str := ("---\n").data

/-- The closing delimiter pattern `\n---` searched from index 4
(AI_summarize.py line 64). -/
def fmCloseDelim : Str := ("\n---").data

/-- `split_front_matter` (AI_summarize.py lines 61-69), over an abstract YAML
parser standing for the external `yaml.safe_load`: `parse` returns
`Except.error ()` when `safe_load` raises on malformed input, `Except.ok
none` for a YAML null (empty document), and `Except.ok (some fm)` for a
mapping.  The source expression `yaml.safe_load(fm) or {}` maps a null onto
the empty mapping and lets a parse exception propagate to the caller. -/
def split_front_matter (parse : Str → Except Unit (Option Fm)) (text : Str) :
    Except Unit (Fm × Str) :=
  if fmOpenDelim.isPrefixOf text then
    match pyFind text fmCloseDelim 4 with
    | some e =>
      (parse ((text.drop 4).take (e - 4))).map
        (fun v => (v.getD [], lstripNl (text.drop (e + 4))))
    | none => Except.ok ([], text)
  else Except.ok ([], text)

/-- The always-failing YAML parser: models `yaml.safe_load` raising a
`YAMLError` on malformed front matter. -/
def yamlRejectAll : Str → Except Unit (Option Fm) := fun _ => Except.error ()

/-- A document whose front-matter delimiters are present but whose enclosed
text is not valid YAML. -/
def malformedDoc : Str := ("---\nfoo: [\n---\nbody").data

/-- C6 counterexample: on a document with a malformed front-matter block the
parse error propagates out of `split_front_matter` — the result is the
raised error, not a degraded empty front-matter mapping. -/
theorem c6_counterexample :
    split_front_matter yamlRejectAll malformedDoc = Except.error () := by
  rfl

/-- C6 amended: a malformed front-matter block (delimiters present, parser
raising) makes `split_front_matter` itself raise, so the error reaches the
per-document handler instead of degrading to an empty mapping; only a block
parsed as YAML null degrades to the empty mapping; and a front-matter parse
error aborts at most the current document — every scanned document of a run
is still tallied, so the run as a whole never aborts. -/
theorem c6_parse_error_propagates (parse : Str → Except Unit (Option Fm))
    (text : Str) (e : Nat) (p k : Str → Bool) (files : List Str)
    (hpre : fmOpenDelim.isPrefixOf text = true)
    (hfind : pyFind text fmCloseDelim 4 = some e) :
    (parse ((text.drop 4).take (e - 4)) = Except.error () →
      split_front_matter parse text = Except.error ())
    ∧ (parse ((text.drop 4).take (e - 4)) = Except.ok none →
      split_front_matter parse text
        = Except.ok ([], lstripNl (text.drop (e + 4))))
    ∧ (scan files).length
        ≤ (runMain p k files).nSuccess + (runMain p k files).nFail := by
  refine ⟨?_, ?_, ?_⟩
  · intro hp
    rw [split_front_matter, hpre, if_pos rfl, hfind]
    dsimp only
    rw [hp]
    rfl
  · intro hp
    rw [split_front_matter, hpre, if_pos rfl, hfind]
    dsimp only
    rw [hp]
    rfl
  · obtain ⟨hS, hF⟩ := runMain_counts p k files
    rw [hS, hF, filter_counts_sum]
    omega

/-- Witness for C6 amended, at the malformed sample document and concrete
run oracles. -/
theorem c6_witness :
    (fmOpenDelim.isPrefixOf malformedDoc = true
      ∧ pyFind malformedDoc fmCloseDelim 4 = some 10)
    ∧ ((yamlRejectAll ((malformedDoc.drop 4).take (10 - 4)) = Except.error () →
        split_front_matter yamlRejectAll malformedDoc = Except.error ())
      ∧ (yamlRejectAll ((malformedDoc.drop 4).take (10 - 4)) = Except.ok none →
        split_front_matter yamlRejectAll malformedDoc
          = Except.ok ([], lstripNl (malformedDoc.drop (10 + 4))))
      ∧ (scan filesW).length
          ≤ (runMain procOkW markOkW filesW).nSuccess
            + (runMain procOkW markOkW filesW).nFail) :=
  ⟨⟨by decide, by decide⟩,
    c6_parse_error_propagates yamlRejectAll malformedDoc 10 procOkW markOkW
      filesW (by decide) (by decide)⟩

/-- The numeric value of a decimal digit character, when it is one. -/
def digitVal (c : Char) : Option Nat :=
  if c.isDigit then some (c.toNat - 48) else none

/-- Read exactly two decimal digits. -/
def read2 : Str → Option (Nat × Str)
  | a :: b :: rest =>
    match digitVal a, digitVal b with
    | some x, some y => some (x * 10 + y, rest)
    | _, _ => none
  | _ => none

/-- Read exactly four decimal digits. -/
def read4 (s : Str) : Option (Nat × Str) :=
  match read2 s with
  | some (hi, rest) =>
    match read2 rest with
    | some (lo, rest2) => some (hi * 100 + lo, rest2)
    | none => none
  | none => none

/-- Consume one expected character. -/
def expectChar (c : Char) : Str → Option Str
  | d :: rest => if d = c then some rest else none
  | [] => none

/-- Calendar field validation used by the datetime parsers. -/
def validYmd (mo d : Nat) : Bool :=
  decide (1 ≤ mo) && decide (mo ≤ 12) && decide (1 ≤ d) && decide (d ≤ 31)

/-- Clock field validation used by the datetime parsers. -/
def validHms (h m s : Nat) : Bool :=
  decide (h ≤ 23) && decide (m ≤ 59) && decide (s ≤ 59)

/-- Read `YYYY-MM-DD`. -/
def readDate (s : Str) : Option (Nat × Nat × Nat × Str) :=
  match read4 s with
  | none => none
  | some (y, r1) =>
    match expectChar '-' r1 with
    | none => none
    | some r2 =>
      match read2 r2 with
      | none => none
      | some (mo, r3) =>
        match expectChar '-' r3 with
        | none => none
        | some r4 =>
          match read2 r4 with
          | none => none
          | some (d, r5) => some (y, mo, d, r5)

/-- Read `HH:MM` optionally followed by `:SS`. -/
def readTime (s : Str) : Option (Nat × Nat × Nat × Str) :=
  match read2 s with
  | none => none
  | some (h, r1) =>
    match expectChar ':' r1 with
    | none => none
    | some r2 =>
      match read2 r2 with
      | none => none
      | some (m, r3) =>
        match expectChar ':' r3 with
        | none => some (h, m, 0, r3)
        | some r4 =>
          match read2 r4 with
          | none => none
          | some (sec, r5) => some (h, m, sec, r5)

/-- Read an optional UTC offset `+HH:MM` or `-HH:MM` at the end of an
ISO-8601 string; the empty remainder means a naive datetime. -/
def readOffset : Str → Option (Option Int × Str)
  | [] => some (none, [])
  | '+' :: r =>
    match read2 r with
    | some (h, r1) =>
      match expectChar ':' r1 with
      | some r2 =>
        match read2 r2 with
        | some (m, r3) =>
          if validHms h m 0 then some (some ((h * 60 + m : Nat) : Int), r3)
          else none
        | none => none
      | none => none
    | none => none
  | '-' :: r =>
    match read2 r with
    | some (h, r1) =>
      match expectChar ':' r1 with
      | some r2 =>
        match read2 r2 with
        | some (m, r3) =>
          if validHms h m 0 then some (some (-((h * 60 + m : Nat) : Int)), r3)
          else none
        | none => none
      | none => none
    | none => none
  | _ => none

/-- Modelled from the spec: the ISO-8601 parse attempted by the Front-Matter
Transformer ("attempt ISO-8601 parse, treating a trailing `Z` as UTC
offset").  Python's `datetime.fromisoformat` is standard-library code outside
this repository; this model accepts `YYYY-MM-DD`, optionally followed by a
`T` or space separator, `HH:MM[:SS]`, and an optional `±HH:MM` offset, with
field-range validation (day-of-month validation is simplified to 1..31). -/
def fromisoformat (s : Str) : Option PyDateTime :=
  match readDate s with
  | none => none
  | some (y, mo, d, rest) =>
    if validYmd mo d then
      match rest with
      | [] => some ⟨y, mo, d, 0, 0, 0, none⟩
      | c :: r =>
        if c = 'T' ∨ c = ' ' then
          match readTime r with
          | none => none
          | some (h, mi, sec, r2) =>
            if validHms h mi sec then
              match readOffset r2 with
              | some (off, []) => some ⟨y, mo, d, h, mi, sec, off⟩
              | _ => none
            else none
        else none
    else none

/-- Modelled from the spec: `datetime.strptime(raw, "%Y-%m-%d %H:%M:%S")` —
the whole string must match the format, and the result is naive. -/
def strptimeYmdHms (s : Str) : Option PyDateTime :=
  match readDate s with
  | none => none
  | some (y, mo, d, rest) =>
    match expectChar ' ' rest with
    | none => none
    | some r1 =>
      match readTime r1 with
      | some (h, mi, sec, []) =>
        if validYmd mo d && validHms h mi sec then
          some ⟨y, mo, d, h, mi, sec, none⟩
        else none
      | _ => none

/-- Modelled from the spec: `datetime.strptime(raw, "%Y-%m-%d")` — the whole
string must match the date format, and the result is naive midnight. -/
def strptimeYmd (s : Str) : Option PyDateTime :=
  match readDate s with
  | some (y, mo, d, []) =>
    if validYmd mo d then some ⟨y, mo, d, 0, 0, 0, none⟩ else none
  | _ => none

/-- `raw_date.replace("Z", "+00:00")` (AI_summarize.py line 126): the pattern
is the single character `Z`, so the replacement is character-wise. -/
def replaceZ (s : Str) : Str :=
  s.flatMap (fun c => if c = 'Z' then ("+00:00").data else [c])

/-- `front.pop(k)` on a Python dict: remove the (unique) binding of the
key. -/
def popKey : Fm → Str → Fm
  | [], _ => []
  | (k', v') :: rest, k => if k' = k then rest else (k', v') :: popKey rest k

/-- `front[k] = v` on a Python dict: update the binding in place when the
key is present, otherwise append the new binding at the end. -/
def setKey : Fm → Str → Val → Fm
  | [], k, v => [(k, v)]
  | (k', v') :: rest, k, v =>
    if k' = k then (k, v) :: rest else (k', v') :: setKey rest k v

/-- The `date` key. -/
def strDate : Str := ("date").data

/-- The `pubDatetime` key. -/
def strPubDatetime : Str := ("pubDatetime").data

/-- The date-normalization block of `process_one`
(AI_summarize.py lines 120-134): remove `date`; for a string value try the
ISO-8601 parse after replacing `Z` by `+00:00`, then the
`"%Y-%m-%d %H:%M:%S"` and `"%Y-%m-%d"` strptime fallbacks, else keep the raw
string; a non-string value is kept unchanged; the result is stored under
`pubDatetime`. -/
def transform_date (front : Fm) : Fm :=
  match front.lookup strDate with
  | none => front
  | some v =>
    let f2 := popKey front strDate
    let pub : Val :=
      match v with
      | Val.vstr raw =>
        match fromisoformat (replaceZ raw) with
        | some d => Val.vdt d
        | none =>
          match strptimeYmdHms raw with
          | some d => Val.vdt d
          | none =>
            match strptimeYmd raw with
            | some d => Val.vdt d
            | none => Val.vstr raw
      | other => other
    setKey f2 strPubDatetime pub

/-- A key that is not among the keys of a mapping has no binding. -/
theorem lookup_eq_none_of_not_mem_keys (l : Fm) (k : Str)
    (h : k ∉ l.map Prod.fst) : l.lookup k = none := by
  induction l with
  | nil => rfl
  | cons kv rest ih =>
    obtain ⟨k', v'⟩ := kv
    have hk : k ≠ k' := by
      intro hkk
      subst hkk
      exact h (by rw [List.map_cons]; exact List.mem_cons_self _ _)
    simp only [List.lookup, beq_eq_false_iff_ne.mpr hk]
    exact ih (fun hc => h (List.mem_cons_of_mem _ hc))

/-- Under the unique-key discipline, popping a key removes its binding. -/
theorem lookup_popKey_self (front : Fm) (k : Str)
    (hnd : (front.map Prod.fst).Nodup) : (popKey front k).lookup k = none := by
  induction front with
  | nil => rfl
  | cons kv rest ih =>
    obtain ⟨k', v'⟩ := kv
    rw [List.map_cons] at hnd
    obtain ⟨hhead, htail⟩ := List.nodup_cons.mp hnd
    rw [popKey]
    by_cases hk : k' = k
    · rw [if_pos hk]
      exact lookup_eq_none_of_not_mem_keys rest k (hk ▸ hhead)
    · rw [if_neg hk]
      simp only [List.lookup, beq_eq_false_iff_ne.mpr (fun h => hk h.symm)]
      exact ih htail

/-- Setting a key makes its binding the given value. -/
theorem lookup_setKey_self (fm : Fm) (k : Str) (v : Val) :
    (setKey fm k v).lookup k = some v := by
  induction fm with
  | nil => simp [setKey, List.lookup]
  | cons kv rest ih =>
    obtain ⟨k', v'⟩ := kv
    rw [setKey]
    by_cases hk : k' = k
    · rw [if_pos hk]
      simp [List.lookup]
    · rw [if_neg hk]
      simp only [List.lookup, beq_eq_false_iff_ne.mpr (fun h => hk h.symm)]
      exact ih

/-- Setting one key leaves the binding of any other key unchanged. -/
theorem lookup_setKey_ne (fm : Fm) (k k2 : Str) (v : Val) (h : k2 ≠ k) :
    (setKey fm k v).lookup k2 = fm.lookup k2 := by
  induction fm with
  | nil => simp [setKey, List.lookup, beq_eq_false_iff_ne.mpr h]
  | cons kv rest ih =>
    obtain ⟨k', v'⟩ := kv
    rw [setKey]
    by_cases hk : k' = k
    · rw [if_pos hk]
      simp only [List.lookup, beq_eq_false_iff_ne.mpr h, hk]
    · rw [if_neg hk]
      by_cases hk2 : k2 = k'
      · simp [List.lookup, hk2]
      · simp only [List.lookup, beq_eq_false_iff_ne.mpr hk2]
        exact ih

/-- The sample ISO-8601 date string of the specification. -/
def isoSample : Str := ("2023-05-01T12:00:00Z").data

/-- The datetime denoted by the sample string: 2023-05-01 12:00:00 UTC,
timezone-aware with offset zero. -/
def isoSampleDt : PyDateTime := ⟨2023, 5, 1, 12, 0, 0, some 0⟩

/-- C7: on a front matter whose `date` field holds
`"2023-05-01T12:00:00Z"`, the Front-Matter Transformer removes the `date`
key and stores under `pubDatetime` a timezone-aware datetime equal to
2023-05-01 12:00:00 UTC. -/
theorem c7_date_normalization (front : Fm)
    (hnd : (front.map Prod.fst).Nodup)
    (hdate : front.lookup strDate = some (Val.vstr isoSample)) :
    (transform_date front).lookup strDate = none
    ∧ (transform_date front).lookup strPubDatetime = some (Val.vdt isoSampleDt)
    ∧ isoSampleDt.tzOffsetMin = some 0 := by
  have hiso : fromisoformat (replaceZ isoSample) = some isoSampleDt := by
    decide
  rw [transform_date, hdate]
  dsimp only
  rw [hiso]
  refine ⟨?_, ?_, rfl⟩
  · rw [lookup_setKey_ne _ _ _ _ (by decide)]
    exact lookup_popKey_self front strDate hnd
  · exact lookup_setKey_self _ _ _

/-- A concrete front matter for the C7 witness. -/
def frontW : Fm := [(("title").data, Val.vstr (("x").data)),
  (strDate, Val.vstr isoSample)]

/-- Witness for C7 at a concrete two-key front matter. -/
theorem c7_witness :
    ((frontW.map Prod.fst).Nodup
      ∧ frontW.lookup strDate = some (Val.vstr isoSample))
    ∧ ((transform_date frontW).lookup strDate = none
      ∧ (transform_date frontW).lookup strPubDatetime
          = some (Val.vdt isoSampleDt)
      ∧ isoSampleDt.tzOffsetMin = some 0) :=
  ⟨⟨by decide, by decide⟩,
    c7_date_normalization frontW (by decide) (by decide)⟩

/-- `*[源信息](` — the head of the attribution line (AI_summarize.py
line 103). -/
def attrPre : Str := ("*[源信息](").data

/-- `)经过deepseek翻译并总结*` with its two newlines — the tail of the
attribution line (AI_summarize.py line 103). -/
def attrPost : Str := (")经过deepseek翻译并总结*\n\n").data

/-- `## 摘要：` with its blank line — the opening of the summary block
(AI_summarize.py line 104). -/
def sumHead : Str := ("## 摘要：\n\n").data

/-- The blank line, horizontal rule and blank line closing the summary block
(AI_summarize.py line 104). -/
def sumTail : Str := ("\n\n---\n\n").data

/-- The closing of the serialized front-matter block (AI_summarize.py
line 105). -/
def fmBlockClose : Str := ("\n---\n\n").data

/-- `str.strip()`: remove leading and trailing whitespace. -/
def pyStrip (s : Str) : Str :=
  ((s.dropWhile isWsChar).reverse.dropWhile isWsChar).reverse

/-- The attribution block: Python's `if link` is false for `None` and for
the empty string, so the block is present exactly for a non-empty link. -/
def linkBlockOf : Option Str → Str
  | none => []
  | some l => if l = [] then [] else attrPre ++ l ++ attrPost

/-- `compose_markdown` (AI_summarize.py lines 101-105), over an abstract
serializer `dump` standing for the external `yaml.safe_dump`: the
front-matter text is the stripped dump between `---` lines, then the
attribution block for a truthy link, then the summary block, then the
translated body. -/
def compose_markdown (dump : Fm → Str) (front : Fm) (link : Option Str)
    (summary body : Str) : Str :=
  fmOpenDelim ++ pyStrip (dump front) ++ fmBlockClose
    ++ (match link with
        | none => []
        | some l => if l = [] then [] else attrPre ++ l ++ attrPost)
    ++ (sumHead ++ summary ++ sumTail)
    ++ body

/-- C8 counterexample: with a present but empty link string the Assembler
emits no attribution line at all (the output contains no `*`, though every
attribution line contains one), refuting "an attribution line present
exactly when a link is present". -/
theorem c8_counterexample :
    (some ([] : Str)).isSome = true
    ∧ '*' ∉ compose_markdown (fun _ => []) [] (some [])
        (("s").data) (("b").data)
    ∧ '*' ∈ attrPre := by
  refine ⟨rfl, by decide, by decide⟩

/-- C8 amended: the Assembler's output is exactly the front-matter block
delimited by `---` lines, then the attribution line — present exactly when a
non-empty link is present (Python truthiness: an empty link string produces
no attribution) — then the summary heading `## 摘要：`, a blank line, the
summary, a horizontal rule, and the full translated body; in particular the
output always begins with `---` and a newline. -/
theorem c8_assembled_layout (dump : Fm → Str) (front : Fm) (link : Option Str)
    (summary body : Str) :
    compose_markdown dump front link summary body
      = fmOpenDelim ++ pyStrip (dump front) ++ fmBlockClose
        ++ linkBlockOf link ++ sumHead ++ summary ++ sumTail ++ body
    ∧ (linkBlockOf link = [] ↔ link = none ∨ link = some [])
    ∧ (compose_markdown dump front link summary body).take 4 = fmOpenDelim := by
  have hshape : compose_markdown dump front link summary body
      = fmOpenDelim ++ pyStrip (dump front) ++ fmBlockClose
        ++ linkBlockOf link ++ sumHead ++ summary ++ sumTail ++ body := by
    rw [compose_markdown.eq_def, linkBlockOf.eq_def]
    cases link with
    | none => simp [List.append_assoc]
    | some l => by_cases hl : l = [] <;> simp [hl, List.append_assoc]
  refine ⟨hshape, ?_, ?_⟩
  · rw [linkBlockOf.eq_def]
    cases link with
    | none => simp
    | some l =>
      by_cases hl : l = []
      · simp [hl]
      · have hne : attrPre ++ l ++ attrPost ≠ [] := by
          intro hcon
          have := congrArg List.length hcon
          simp [attrPre, List.length_append] at this
        simp [hl, hne]
  · rw [hshape]
    have h4 : fmOpenDelim.length = 4 := by decide
    rw [List.append_assoc _ _ body, List.append_assoc _ _ (sumTail ++ body),
      List.append_assoc _ _ (summary ++ (sumTail ++ body)),
      List.append_assoc _ _ (sumHead ++ (summary ++ (sumTail ++ body))),
      List.append_assoc _ _ (linkBlockOf link ++ _),
      List.append_assoc fmOpenDelim]
    exact List.take_left' h4

/-- Witness for C8 at concrete assembler inputs with a non-empty link. -/
theorem c8_witness :
    compose_markdown (fun _ => ("k: v").data) frontW (some (("u").data))
        (("s").data) (("b").data)
      = fmOpenDelim ++ pyStrip (("k: v").data) ++ fmBlockClose
        ++ linkBlockOf (some (("u").data)) ++ sumHead ++ ("s").data
        ++ sumTail ++ ("b").data
    ∧ (linkBlockOf (some (("u").data)) = []
        ↔ some (("u").data) = none ∨ some (("u").data) = some [])
    ∧ (compose_markdown (fun _ => ("k: v").data) frontW (some (("u").data))
        (("s").data) (("b").data)).take 4 = fmOpenDelim :=
  c8_assembled_layout (fun _ => ("k: v").data) frontW (some (("u").data))
    (("s").data) (("b").data)

/-- The tag delimiter class of `re.split(r"[,，、\n]+", ...)`
(AI_summarize.py line 159): comma, fullwidth comma, ideographic comma,
newline. -/
def isTagDelim (c : Char) : Bool :=
  c = ',' || c = '，' || c = '、' || c = '\n'

/-- `re.split(r"[,，、\n]+", s)`: the pieces between maximal delimiter runs,
including an empty leading piece when the string starts with a delimiter and
an empty trailing piece when it ends with one. -/
def splitDelimRuns : Str → List Str
  | [] => [[]]
  | c :: cs =>
    let r := splitDelimRuns cs
    if isTagDelim c then
      match cs with
      | c2 :: _ => if isTagDelim c2 then r else [] :: r
      | [] => [] :: r
    else
      match r with
      | p :: ps => (c :: p) :: ps
      | [] => [[c]]

/-- The tag extraction of `process_one` (AI_summarize.py line 159):
`[kw.strip() for kw in re.split(r"[,，、\n]+", resp) if kw.strip()]`. -/
def extract_tags (resp : Str) : List Str :=
  ((splitDelimRuns resp).map pyStrip).filter (fun t => !t.isEmpty)

/-- C9: tag extraction splits the raw response on commas, fullwidth commas,
ideographic commas and newlines, trims each token, and discards empty
tokens; on the sample response it yields exactly the four tags in order,
with no empty entry. -/
theorem c9_tag_extraction :
    extract_tags (("AI, 芯片、机器人\n监管").data)
      = [("AI").data, ("芯片").data, ("机器人").data, ("监管").data]
    ∧ ([] : Str) ∉ extract_tags (("AI, 芯片、机器人\n监管").data) := by
  exact ⟨by decide, by decide⟩

end Signaler
